import Mathlib

/-!
Verification of the slice/frame/pad partitioning engine of
`savu/data/transport_data/hdf5_transport_data.py` (class `Hdf5TransportData`),
via a shallow embedding of its functions.

Conventions of the embedding:
* Python `slice(start, stop, step)` objects in this module always carry step
  `1` or `None` (both meaning unit step), so a slice is embedded as a pair of
  optional integers `(start, stop)`.
* `int(x / float(y))` truncates toward zero, hence `Int.div`; Python's `%`
  follows the sign of the divisor, hence `Int.fmod`.
* Python runtime errors that the embedded functions can raise are made
  explicit with `Except PyErr` or `Option` results.
-/

/-- Python runtime errors raised by the embedded functions. -/
inductive PyErr where
  | zeroDivision
  | nameError
  | indexError
deriving DecidableEq

/-- A Python `slice(start, stop, 1)` with optional bounds. -/
abbrev PySlice : Type := Option ℤ × Option ℤ

/-- A slice descriptor: one `PySlice` per array dimension (the tuples built by
`single_slice_list`). -/
abbrev Desc : Type := List PySlice

/-- Embedding of `Hdf5TransportData.calculate_slice_padding` (source lines
224-254).  The input is either a slice or a bare integer (which the code first
turns into `slice(v, v+1, 1)`); the step of the input slice is passed through
unchanged and is omitted here.  Python's `None > data_stop` comparison is
`False`, so a missing stop keeps `maxpad = pad_ammount` and `maxval = None`. -/
def calculate_slice_padding (in_slice : PySlice ⊕ ℤ) (pad_ammount data_stop : ℤ) :
    PySlice × (ℤ × ℤ) :=
  let sl : PySlice :=
    match in_slice with
    | Sum.inl s => s
    | Sum.inr v => (some v, some (v + 1))
  let minval : Option ℤ := sl.1.map (fun s => s - pad_ammount)
  let maxval : Option ℤ := sl.2.map (fun s => s + pad_ammount)
  let minres : ℤ × Option ℤ :=
    match minval with
    | none => (pad_ammount, none)
    | some m => if m < 0 then (0 - m, some 0) else (0, some m)
  let maxres : ℤ × Option ℤ :=
    match maxval with
    | none => (pad_ammount, none)
    | some m => if m > data_stop then (m - data_stop, some (data_stop + 1)) else (0, some m)
  ((minres.2, maxres.2), (minres.1, maxres.1))

/-- Embedding of `chunk_length_repeat` (source lines 103-122): for each slice
dimension return the triple of lists `(chunk, length, repeat)`.  Note that
`chunk` is computed from the full, un-sliced `shape`
(`np.prod(shape[0:dim])`), not from the sliced shape `sshape`. -/
def chunk_length_repeat (slice_dirs shape : List ℕ) : List ℕ × List ℕ × List ℕ :=
  let sshape := slice_dirs.map (fun sslice => shape.getD sslice 0)
  ((List.range slice_dirs.length).map (fun dim => (shape.take dim).prod),
   (List.range slice_dirs.length).map (fun dim => sshape.getD dim 0),
   (List.range slice_dirs.length).map (fun dim => (sshape.drop (dim + 1)).prod))

/-- Value pattern of `np.ravel(np.kron(np.arange(l), np.ones((r, c))))` used by
`get_slice_dirs_index`: `r` repetitions of the block in which each value
`0, ..., l-1` appears `c` times in a row. -/
def kron_index (l r c : ℕ) : List ℕ :=
  (List.range r).flatMap (fun _ => (List.range l).flatMap (fun v => List.replicate c v))

/-- Embedding of `get_slice_dirs_index` (source lines 124-137): one index row
per slice dimension. -/
def get_slice_dirs_index (slice_dirs shape : List ℕ) : List (List ℕ) :=
  let clr := chunk_length_repeat slice_dirs shape
  (List.range slice_dirs.length).map (fun dim =>
    kron_index (clr.2.1.getD dim 0) (clr.2.2.getD dim 0) (clr.1.getD dim 0))

/-- Result of `np.array(rows).shape[1]`: the common row length when `rows` is a
non-empty rectangular list of rows, otherwise `none` (in that case `np.array`
builds a ragged or 1-D array and taking `.shape[1]` raises). -/
def np_array_2d_cols (rows : List (List ℕ)) : Option ℕ :=
  match rows with
  | [] => none
  | r :: rs => if rs.all (fun x => x.length == r.length) then some r.length else none

/-- Embedding of `single_slice_list` (source lines 139-157).  The arguments
`slice_dirs`, `fix_dirs`/`value` and `shape` stand for the results of
`self.get_slice_directions()`, `self.get_fixed_directions()` and
`self.get_shape()`.  The result is `none` when `np.array(idx_list)` is not a
rectangular 2-D array, in which case the Python code raises. -/
def single_slice_list (slice_dirs fix_dirs value shape : List ℕ) :
    Option (List Desc) :=
  let index := get_slice_dirs_index slice_dirs shape
  match np_array_2d_cols index with
  | none => none
  | some nSlices =>
    let nDims := shape.length
    some ((List.range nSlices).map (fun i =>
      let getitem : Desc := List.replicate nDims ((none : Option ℤ), (none : Option ℤ))
      let getitem :=
        (List.range fix_dirs.length).foldl (fun g f =>
          g.set (fix_dirs.getD f 0)
            (some (value.getD f 0 : ℤ), some ((value.getD f 0 : ℤ) + 1))) getitem
      (List.range slice_dirs.length).foldl (fun g sdir =>
        g.set (slice_dirs.getD sdir 0)
          (some ((index.getD sdir []).getD i 0 : ℤ),
           some (((index.getD sdir []).getD i 0 : ℤ) + 1))) getitem))

/-- Embedding of `banked_list` (source lines 159-170): cut the slice list into
`repeat[0]` consecutive banks of `length[0]` descriptors each; also return
`length[0]` and the slice directions. -/
def banked_list (slice_list : List Desc) (slice_dirs shape : List ℕ) :
    List (List Desc) × ℕ × List ℕ :=
  let clr := chunk_length_repeat slice_dirs shape
  let length0 := clr.2.1.getD 0 0
  let repeat0 := clr.2.2.getD 0 0
  ((List.range repeat0).map (fun rep => (slice_list.drop (rep * length0)).take length0),
   length0, slice_dirs)

/-- Python `range(start, stop, step)` for a non-zero `step`. -/
def pyRange (start stop step : ℤ) : List ℤ :=
  let len : ℕ :=
    if step > 0 then ((stop - start + step - 1).fdiv step).toNat
    else ((start - stop + (0 - step) - 1).fdiv (0 - step)).toNat
  (List.range len).map (fun k => start + k * step)

/-- One iteration of the per-bank loop body of `grouped_slice_list` (source
lines 176-190), threading the Python local variable `i` through the state: it
is unbound (`none`) until the first full-batch loop actually runs, and
referencing it while unbound raises `NameError`. -/
def grouped_bank_step (length slice_dir0 : ℕ) (max_frames : ℤ)
    (st : List Desc × Option ℤ) (group : List Desc) :
    Except PyErr (List Desc × Option ℤ) :=
  if max_frames = 0 then Except.error PyErr.zeroDivision
  else
    let full_frames : ℤ := Int.tdiv (length : ℤ) max_frames
    let rem : Bool := decide (Int.fmod (length : ℤ) max_frames ≠ 0)
    let working : Desc := group.getD 0 []
    let elems := pyRange 0 (full_frames * max_frames) max_frames
    let grouped1 := st.1 ++ elems.map (fun i =>
      working.set slice_dir0 (some i, some (i + max_frames)))
    let i1 : Option ℤ :=
      match elems.getLast? with
      | none => st.2
      | some i => some i
    if rem then
      match i1 with
      | none => Except.error PyErr.nameError
      | some i =>
        Except.ok (grouped1 ++
          [working.set slice_dir0 (some (i + max_frames), some (group.length : ℤ))], i1)
    else
      Except.ok (grouped1, i1)

/-- Embedding of `grouped_slice_list` (source lines 172-192). -/
def grouped_slice_list (slice_list : List Desc) (slice_dirs shape : List ℕ)
    (max_frames : ℤ) : Except PyErr (List Desc) :=
  let b := banked_list slice_list slice_dirs shape
  (b.1.foldlM (grouped_bank_step b.2.1 (b.2.2.getD 0 0) max_frames) ([], none)).map
    (fun st => st.1)

/-- Embedding of `get_grouped_slice_list` (source lines 194-208): an unset
(`None`) `nFrames` is replaced by `1`.  The `sl is None` check of the source is
unreachable because `single_slice_list` always returns a list when it does not
raise; a raise inside `single_slice_list` propagates instead. -/
def get_grouped_slice_list (slice_dirs fix_dirs value shape : List ℕ)
    (nFrames : Option ℤ) : Except PyErr (List Desc) :=
  let max_frames : ℤ := match nFrames with | none => 1 | some m => m
  match single_slice_list slice_dirs fix_dirs value shape with
  | none => Except.error PyErr.indexError
  | some sl => grouped_slice_list sl slice_dirs shape max_frames

/-- Section sizes of `np.array_split(np.arange(n), P)`: the first `n % P`
sections receive `n / P + 1` elements, the remaining ones `n / P`. -/
def split_sizes (n P : ℕ) : List ℕ :=
  (List.range P).map (fun r => n / P + if r < n % P then 1 else 0)

/-- Consecutive blocks of the given sizes, starting at `s`. -/
def range_parts : List ℕ → ℕ → List (List ℕ)
  | [], _ => []
  | k :: t, s => List.range' s k :: range_parts t (s + k)

/-- Embedding of `np.array_split(np.arange(n), P)` as used by
`get_slice_list_per_process`. -/
def array_split (n P : ℕ) : List (List ℕ) := range_parts (split_sizes n P) 0

/-- Embedding of `get_slice_list_per_process` (source lines 210-222, default
`frameList=False` path): evaluating `frames[0]` on an empty section raises
`IndexError`; otherwise the result is `slice_list[frames[0]:frames[-1]+1]`. -/
def get_slice_list_per_process (slice_list : List Desc) (nProc rank : ℕ) :
    Except PyErr (List Desc) :=
  let frames := (array_split slice_list.length nProc).getD rank []
  match frames with
  | [] => Except.error PyErr.indexError
  | f :: rest =>
    let lastF := (f :: rest).getLast (List.cons_ne_nil f rest)
    Except.ok ((slice_list.drop f).take (lastF + 1 - f))

/-- An n-dimensional array: a shape plus a total indexing function.  An index
assignment gives a coordinate for every axis position; only the coordinates of
axes below `shape.length` that lie inside the shape are meaningful. -/
structure NDArr (α : Type) where
  shape : List ℕ
  get : (ℕ → ℕ) → α

/-- Normalized start of a unit-step Python slice on an axis of extent `n`. -/
def sliceStart (sl : PySlice) (n : ℕ) : ℕ :=
  match sl.1 with
  | none => 0
  | some s => if s < 0 then (n + s).toNat else min s.toNat n

/-- Normalized (exclusive) stop of a unit-step Python slice on an axis of
extent `n`. -/
def sliceStop (sl : PySlice) (n : ℕ) : ℕ :=
  match sl.2 with
  | none => n
  | some e => if e < 0 then (n + e).toNat else min e.toNat n

/-- Number of elements selected by a unit-step Python slice on an axis of
extent `n`. -/
def sliceLen (sl : PySlice) (n : ℕ) : ℕ := sliceStop sl n - sliceStart sl n

/-- Basic indexing `a[sls]` of an n-dimensional array by a tuple of unit-step
slices, one per leading axis; trailing axes are kept whole, as in numpy. -/
def ndRead {α : Type} (a : NDArr α) (sls : List PySlice) : NDArr α where
  shape := (List.range a.shape.length).map (fun i =>
    sliceLen (sls.getD i (none, none)) (a.shape.getD i 0))
  get := fun idx => a.get (fun i =>
    match sls[i]? with
    | none => idx i
    | some sl => sliceStart sl (a.shape.getD i 0) + idx i)

/-- Edge ("replicate") clamping used by `np.pad(mode='edge')`: position `j` of
the padded axis maps to `clamp(j - lo, 0, n - 1)` of the original axis. -/
def edgeClamp (lo n j : ℕ) : ℕ := if j < lo then 0 else min (j - lo) (n - 1)

/-- Embedding of `np.pad(a, pads, mode='edge')`; `pads` are per-axis
`(before, after)` pairs (negative amounts never arise in this module). -/
def ndPadEdge {α : Type} (a : NDArr α) (pads : List (ℤ × ℤ)) : NDArr α where
  shape := (List.range a.shape.length).map (fun i =>
    (pads.getD i (0, 0)).1.toNat + a.shape.getD i 0 + (pads.getD i (0, 0)).2.toNat)
  get := fun idx => a.get (fun i =>
    match pads[i]? with
    | none => idx i
    | some pq => edgeClamp pq.1.toNat (a.shape.getD i 0) (idx i))

/-- Embedding of `get_pad_data` (source lines 256-273) for the case where every
descriptor entry is a slice, as produced by `single_slice_list` (the branch
turning bare integer entries into slices is then dead code): read the window,
then edge-pad it. -/
def get_pad_data {α : Type} (data : NDArr α) (slice_list : List PySlice)
    (pad_list : List (ℤ × ℤ)) : NDArr α :=
  ndPadEdge (ndRead data slice_list) pad_list

/-- Embedding of `get_padded_slice_data` (source lines 281-297).  The padding
dictionary `self.padding` / `get_padding_dict()` is abstracted as an optional
per-direction pad amount (`none` for directions without an entry). -/
def get_padded_slice_data {α : Type} (data : NDArr α)
    (padding : Option (List (Option ℤ))) (input_slice_list : List PySlice) :
    NDArr α :=
  match padding with
  | none => ndRead data input_slice_list
  | some pd =>
    let upd := fun i =>
      match pd.getD i none with
      | none => (input_slice_list.getD i ((none : Option ℤ), (none : Option ℤ)),
                 ((0 : ℤ), (0 : ℤ)))
      | some p =>
        calculate_slice_padding (Sum.inl (input_slice_list.getD i (none, none))) p
          (data.shape.getD i 0 : ℤ)
    get_pad_data data
      ((List.range input_slice_list.length).map (fun i => (upd i).1))
      ((List.range input_slice_list.length).map (fun i => (upd i).2))

/-- Embedding of `get_unpadded_slice_data` (source lines 299-330).  The
`slice_list`/`pad_list` recomputed on lines 305-318 are never used by the
function and are omitted; the result only strips `padding_dict[direction]`
elements from both ends of every padded direction, via
`slice(expand, -expand)`. -/
def get_unpadded_slice_data {α : Type} (data : NDArr α)
    (padding : Option (List (Option ℤ))) (input_slice_list : List PySlice)
    (padded_dataset : NDArr α) : NDArr α :=
  match padding with
  | none => ndRead data input_slice_list
  | some pd =>
    let slice_list_2 := (List.range padded_dataset.shape.length).map (fun i =>
      let ex := (pd.getD i none).getD 0
      if 0 < ex then ((some ex : Option ℤ), (some (0 - ex) : Option ℤ))
      else ((none : Option ℤ), (none : Option ℤ)))
    ndRead padded_dataset slice_list_2

/-- Does a slice denote a finite in-bounds window `[s, e)` on an axis of
extent `n`? -/
def sliceInBounds (sl : PySlice) (n : ℕ) : Bool :=
  match sl with
  | (some s, some e) => decide (0 ≤ s) && decide (s ≤ e) && decide (e ≤ (n : ℤ))
  | _ => false

/-- Is the requested window a list of finite in-bounds ranges, one per
dimension of the given shape? -/
def windowInBounds (input : List PySlice) (shape : List ℕ) : Bool :=
  (input.length == shape.length) &&
  (List.range input.length).all (fun i =>
    sliceInBounds (input.getD i (none, none)) (shape.getD i 0))

/-- Are all pad amounts of a padding dictionary non-negative? -/
def padsNonneg (pd : List (Option ℤ)) : Bool :=
  pd.all (fun o => match o with | none => true | some p => decide (0 ≤ p))

/-- Model of the backing hdf5 file object (external to this module): closing
it either succeeds or raises. -/
structure BackingFile where
  closeRaises : Bool

/-- Outcome of `backing_file.close()` (external h5py behaviour). -/
def backingClose (f : BackingFile) : Except Unit Unit :=
  if f.closeRaises then Except.error () else Except.ok ()

/-- Embedding of `save_data` (source lines 91-101) acting on the
`self.backing_file` field: nothing happens when the field is `None`; otherwise
the `try` block closes the file and resets the field to `None`, and the bare
`except: pass` suppresses a raising close, leaving the field unchanged. -/
def save_data (s : Option BackingFile) : Option BackingFile :=
  match s with
  | none => none
  | some f =>
    match backingClose f with
    | Except.ok _ => none
    | Except.error _ => some f


/-! ## Helper lemmas -/

/-- Closed form of `calculate_slice_padding` on a finite slice: the low side is
clipped to `0`, the high side to `data_stop + 1` (not `data_stop`), and the pad
amounts are the clipped-away parts. -/
theorem calc_pad_finite (s e p n : ℤ) :
    calculate_slice_padding (Sum.inl (some s, some e)) p n =
      ((some (max (s - p) 0), some (if e + p > n then n + 1 else e + p)),
       (max 0 (p - s), max 0 (e + p - n))) := by
  unfold calculate_slice_padding
  simp only [Option.map_some']
  split_ifs with h1 h2 h2 <;>
    refine Prod.ext (Prod.ext ?_ ?_) (Prod.ext ?_ ?_) <;> simp <;> omega

/-- Closed form of `calculate_slice_padding` on the all-`None` slice. -/
theorem calc_pad_none (p n : ℤ) :
    calculate_slice_padding (Sum.inl ((none : Option ℤ), (none : Option ℤ))) p n =
      ((none, none), (p, p)) := by
  unfold calculate_slice_padding
  simp

/-! ## C1: partition completeness of the slice enumeration -/

/-- C1.  The claimed partition property fails in the code: with shape
`[3, 2, 2]`, fixed dimension `0` (at index `0`) and slice dimensions `[1, 2]`,
the `chunk` factors are taken from the full shape, so the per-dimension index
rows have different lengths (`4` and `6`); `np.array(idx_list)` is then not a
rectangular 2-D array and `single_slice_list` raises instead of producing the
`2 * 2 = 4` descriptors that would cover the slice subspace. -/
theorem single_slice_list_ragged_crash :
    (get_slice_dirs_index [1, 2] [3, 2, 2]).map List.length = [4, 6] ∧
    single_slice_list [1, 2] [0] [0] [3, 2, 2] = none := by decide

/-! ## C3: calculate_slice_padding -/

/-- C3 counterexample.  For extent `10`, requested window `[8, 10)` and pad
`2`, the code returns the read window `[6, 11)` whose stop is
`data_stop + 1 = 11`, not `min(stop + p, dimExtent) = 10` as claimed. -/
theorem calculate_slice_padding_not_clipped_to_extent :
    calculate_slice_padding (Sum.inl (some 8, some 10)) 2 10 =
      ((some 6, some 11), (0, 2)) ∧
    (calculate_slice_padding (Sum.inl (some 8, some 10)) 2 10).1.2 ≠
      some (min (10 + 2) 10 : ℤ) := by decide

/-- C3 amended.  For a finite request `[s, e)` with pad `p` and extent `n`,
`calculate_slice_padding` returns the read window
`[max(s - p, 0), e + p)` when `e + p ≤ n` and `[max(s - p, 0), n + 1)`
otherwise (one past the extent; its consumers clamp when indexing), with
`lowPad = max(0, p - s)` and `highPad = max(0, (e + p) - n)`; a missing bound
yields the full pad `p` on that side; and on shape `[10]`, window `[0, 3)`,
pad `2` it returns read range `[0, 5)` with pads `(2, 0)` while the padded
output has length `7` and its first two elements equal element `0`. -/
theorem calculate_slice_padding_spec (s e p n : ℤ) :
    calculate_slice_padding (Sum.inl (some s, some e)) p n =
      ((some (max (s - p) 0), some (if e + p > n then n + 1 else e + p)),
       (max 0 (p - s), max 0 (e + p - n))) ∧
    calculate_slice_padding (Sum.inl ((none : Option ℤ), (none : Option ℤ))) p n =
      ((none, none), (p, p)) ∧
    calculate_slice_padding (Sum.inl (some 0, some 3)) 2 10 =
      ((some 0, some 5), (2, 0)) ∧
    (get_padded_slice_data ⟨[10], fun idx => idx 0⟩ (some [some 2])
        [(some 0, some 3)]).shape = [7] ∧
    (get_padded_slice_data ⟨[10], fun idx => idx 0⟩ (some [some 2])
        [(some 0, some 3)]).get (fun _ => 0) = 0 ∧
    (get_padded_slice_data ⟨[10], fun idx => idx 0⟩ (some [some 2])
        [(some 0, some 3)]).get (fun _ => 1) = 0 := by
  exact ⟨calc_pad_finite s e p n, calc_pad_none p n, by decide, by decide,
    by decide, by decide⟩

/-! ## C4: frame batching -/

/-- C4.  The batcher crashes on a bank shorter than the batch size: with shape
`[2]` (a single bank of length `2`) and `max_frames = 5`, the full-batch loop
never runs, so the Python local `i` is unbound and the remainder branch raises
`NameError` instead of emitting the single remainder batch `[0, 2)`. -/
theorem grouped_slice_list_name_error :
    grouped_slice_list ((single_slice_list [0] [] [] [2]).getD []) [0] [2] 5 =
      Except.error PyErr.nameError := by rfl

/-! ## C6: enumeration order -/

/-- C6 counterexample.  With shape `[2, 2]` and slice dimensions `[0, 1]`, the
enumeration is `(0,0), (1,0), (0,1), (1,1)`: between the first two consecutive
descriptors the coordinate of the *last* slice dimension is unchanged while
the coordinate of the *first* slice dimension changes, so the last slice
dimension does not vary fastest. -/
theorem single_slice_list_last_not_fastest :
    single_slice_list [0, 1] [] [] [2, 2] =
      some [[(some 0, some 1), (some 0, some 1)],
            [(some 1, some 2), (some 0, some 1)],
            [(some 0, some 1), (some 1, some 2)],
            [(some 1, some 2), (some 1, some 2)]] ∧
    (((single_slice_list [0, 1] [] [] [2, 2]).getD []).getD 1 []).getD 1 (none, none) =
      (((single_slice_list [0, 1] [] [] [2, 2]).getD []).getD 0 []).getD 1 (none, none) ∧
    (((single_slice_list [0, 1] [] [] [2, 2]).getD []).getD 1 []).getD 0 (none, none) ≠
      (((single_slice_list [0, 1] [] [] [2, 2]).getD []).getD 0 []).getD 0 (none, none) := by
  decide

/-- Element of a map over `List.range` at an in-range position. -/
theorem range_map_getD {β : Type} (f : ℕ → β) (n i : ℕ) (d : β) (h : i < n) :
    ((List.range n).map f).getD i d = f i := by
  rw [List.getD_eq_getElem?_getD, List.getElem?_map, List.getElem?_range h]
  rfl

/-- Product of the prefix of a list read through `getD` over `List.range`. -/
theorem range_map_getD_prod (L : List ℕ) :
    ∀ m, m ≤ L.length → ((List.range m).map (fun j => L.getD j 0)).prod = (L.take m).prod := by
  intro m
  induction m with
  | zero => simp
  | succ m ih =>
    intro h
    rw [List.range_succ, List.map_append, List.prod_append, ih (by omega), List.take_succ]
    have hm : m < L.length := by omega
    simp only [List.getD_eq_getElem?_getD, List.getElem?_eq_getElem hm, Option.getD_some,
      List.map_cons, List.map_nil, List.prod_cons, List.prod_nil, mul_one]
    simp [List.prod_append]
    exact (List.prod_take_succ L m hm).symm

/-! ## C7: the chunk factors -/

/-- C7 counterexample.  For shape `[4, 5, 6]` and slice dimensions `[1, 2]`,
the code computes `chunk = [1, 4]` from the full shape, whereas
`product(length[0:1]) = 5`. -/
theorem chunk_length_repeat_not_length_prefix_prod :
    (chunk_length_repeat [1, 2] [4, 5, 6]).1 = [1, 4] ∧
    ((chunk_length_repeat [1, 2] [4, 5, 6]).2.1.take 1).prod = 5 ∧
    (chunk_length_repeat [1, 2] [4, 5, 6]).1.getD 1 0 ≠
      ((chunk_length_repeat [1, 2] [4, 5, 6]).2.1.take 1).prod := by decide

/-- C7 amended.  The chunk factor at position `dim` equals
`product(shape[0:dim])` computed from the full, un-sliced shape; it coincides
with `product(length[0:dim])` when the slice-dimension list is exactly
`[0, ..., n-1]` in order. -/
theorem chunk_length_repeat_chunk_full_shape (slice_dirs shape : List ℕ) (dim : ℕ)
    (h : dim < slice_dirs.length) (hlen : slice_dirs.length ≤ shape.length) :
    (chunk_length_repeat slice_dirs shape).1.getD dim 0 = (shape.take dim).prod ∧
    (slice_dirs = List.range slice_dirs.length →
      (chunk_length_repeat slice_dirs shape).1.getD dim 0 =
        ((chunk_length_repeat slice_dirs shape).2.1.take dim).prod) := by
  constructor
  · simp only [chunk_length_repeat]
    exact range_map_getD _ _ _ _ h
  · intro hid
    simp only [chunk_length_repeat]
    rw [range_map_getD _ _ _ _ h]
    rw [← List.map_take, List.take_range, min_eq_left (le_of_lt h)]
    have hcong :
        (List.range dim).map (fun d =>
            (slice_dirs.map (fun sslice => shape.getD sslice 0)).getD d 0) =
          (List.range dim).map (fun j => shape.getD j 0) := by
      refine List.map_congr_left (fun j hj => ?_)
      have hjd : j < dim := List.mem_range.mp hj
      conv_lhs => rw [hid]
      exact range_map_getD _ _ _ _ (by omega)
    rw [hcong, range_map_getD_prod shape dim (by omega)]

/-- C7 amended, witness: slice dimensions `[0, 1]`, shape `[4, 5]`, position
`1`: the chunk factor is `4 = product(shape[0:1]) = product(length[0:1])`. -/
theorem chunk_length_repeat_chunk_full_shape_witness :
    (chunk_length_repeat [0, 1] [4, 5]).1.getD 1 0 = ([4, 5].take 1).prod ∧
    ([0, 1] = List.range ([0, 1] : List ℕ).length →
      (chunk_length_repeat [0, 1] [4, 5]).1.getD 1 0 =
        ((chunk_length_repeat [0, 1] [4, 5]).2.1.take 1).prod) :=
  chunk_length_repeat_chunk_full_shape [0, 1] [4, 5] 1 (by decide) (by decide)

/-! ## C9: batch-size handling -/

/-- C9 counterexample.  With banks of length `10` and `max_frames = -5` (a
non-positive batch size), `grouped_slice_list` returns normally with an empty
grouped list; no `InvalidBatchSizeError` (or any error) is raised.  Indeed no
such validation exists anywhere in the module. -/
theorem grouped_slice_list_negative_batch_ok :
    grouped_slice_list ((single_slice_list [0] [] [] [10]).getD []) [0] [10] (-5) =
      Except.ok ([] : List Desc) := by rfl

/-- C9 amended.  An unset (`None`) `nFrames` is treated exactly as `1`; a zero
batch size raises `ZeroDivisionError` (from `length/float(max_frames)`), and a
negative batch size such as `-5` on banks of length `10` is not rejected: the
call returns an empty grouped list without error. -/
theorem get_grouped_slice_list_batch_size_behaviour
    (slice_dirs fix_dirs value shape : List ℕ) :
    get_grouped_slice_list slice_dirs fix_dirs value shape none =
      get_grouped_slice_list slice_dirs fix_dirs value shape (some 1) ∧
    grouped_slice_list ((single_slice_list [0] [] [] [10]).getD []) [0] [10] 0 =
      Except.error PyErr.zeroDivision ∧
    grouped_slice_list ((single_slice_list [0] [] [] [10]).getD []) [0] [10] (-5) =
      Except.ok ([] : List Desc) :=
  ⟨rfl, by rfl, by rfl⟩

/-! ## C10: save_data -/

/-- C10.  `save_data` is a total state transformer (no exception escapes the
bare `except: pass`): on `None` it does nothing; a successful close resets the
backing-file field to `None`, so a second call is a no-op; a raising close is
suppressed and leaves the field unchanged; in every case a repeated call gives
the same state, i.e. `save_data` is idempotent. -/
theorem save_data_idempotent_no_raise :
    (∀ s : Option BackingFile, save_data (save_data s) = save_data s) ∧
    save_data none = none ∧
    (∀ f : BackingFile, f.closeRaises = false → save_data (some f) = none) ∧
    (∀ f : BackingFile, f.closeRaises = true → save_data (some f) = some f) := by
  refine ⟨?_, rfl, ?_, ?_⟩
  · intro s
    match s with
    | none => rfl
    | some f =>
      simp only [save_data, backingClose]
      cases h : f.closeRaises <;> simp [h]
  · intro f h
    simp [save_data, backingClose, h]
  · intro f h
    simp [save_data, backingClose, h]

/-- C10 witness: a file whose close succeeds and one whose close raises. -/
theorem save_data_idempotent_no_raise_witness :
    save_data (save_data (some ⟨false⟩)) = save_data (some ⟨false⟩) ∧
    save_data (some ⟨false⟩) = none ∧
    save_data (some ⟨true⟩) = some ⟨true⟩ :=
  ⟨save_data_idempotent_no_raise.1 (some ⟨false⟩),
   save_data_idempotent_no_raise.2.2.1 ⟨false⟩ rfl,
   save_data_idempotent_no_raise.2.2.2 ⟨true⟩ rfl⟩

/-! ## C8: empty per-process assignment -/

/-- C8 counterexample.  With one batch and two processes, rank `1` has no
assigned batches; instead of receiving an empty list, the code evaluates
`frames[0]` on an empty array and raises `IndexError`. -/
theorem get_slice_list_per_process_raises_on_empty :
    get_slice_list_per_process [[((some 0 : Option ℤ), (some 1 : Option ℤ))]] 2 1 =
      Except.error PyErr.indexError := by rfl

/-- Pattern of an index row with chunk factor `1`: `r` repetitions of
`0, ..., l-1`, i.e. position `k` holds `k % l`. -/
theorem kron_index_one (l r : ℕ) :
    kron_index l r 1 = (List.range (r * l)).map (fun k => k % l) := by
  induction r with
  | zero => simp [kron_index]
  | succ r ih =>
    have h1 : kron_index l (r + 1) 1 =
        kron_index l r 1 ++ (List.range l).flatMap (fun v => List.replicate 1 v) := by
      unfold kron_index
      rw [List.range_succ, List.flatMap_append, List.flatMap_cons, List.flatMap_nil,
        List.append_nil]
    have h2 : (List.range l).flatMap (fun v => List.replicate 1 v) = List.range l := by
      simp
    have h3 : (r + 1) * l = r * l + l := by ring
    rw [h1, ih, h2, h3, List.range_add, List.map_append]
    congr 1
    rw [List.map_map]
    symm
    calc (List.range l).map (fun j => (r * l + j) % l)
        = (List.range l).map (fun j => j) := by
          refine List.map_congr_left fun j hj => ?_
          have hjl : j < l := List.mem_range.mp hj
          rw [Nat.add_comm, Nat.add_mul_mod_self_right, Nat.mod_eq_of_lt hjl]
      _ = List.range l := List.map_id _

/-- C6 amended.  The first slice dimension varies fastest: the index row of
the first slice dimension (chunk factor `product(shape[0:0]) = 1`) is the
cyclic sequence `k % length[0]` over the whole enumeration, so between
consecutive descriptors it is the first entry of `slice_dirs`, not the last,
whose coordinate changes at every step; later entries vary more slowly. -/
theorem get_slice_dirs_index_first_fastest (d : ℕ) (rest shape : List ℕ) :
    (get_slice_dirs_index (d :: rest) shape).getD 0 [] =
      (List.range ((rest.map (fun s => shape.getD s 0)).prod * shape.getD d 0)).map
        (fun k => k % shape.getD d 0) := by
  unfold get_slice_dirs_index
  rw [range_map_getD _ _ _ _ (by simp)]
  simp only [chunk_length_repeat]
  rw [range_map_getD _ _ _ _ (by simp), range_map_getD _ _ _ _ (by simp),
    range_map_getD _ _ _ _ (by simp)]
  simp [kron_index_one]

/-- Concatenating consecutive blocks of the given sizes yields one contiguous
range. -/
theorem range_parts_flatten (ns : List ℕ) :
    ∀ s, (range_parts ns s).flatten = List.range' s ns.sum := by
  induction ns with
  | nil => intro s; simp [range_parts]
  | cons k t ih =>
    intro s
    simp only [range_parts, List.flatten_cons, ih, List.sum_cons]
    have h := List.range'_append s k t.sum 1
    simpa [Nat.add_comm] using h

/-- Sum of `m` terms `a + (1 if r < b else 0)`. -/
theorem sum_range_map_add_ite (a b : ℕ) :
    ∀ m, ((List.range m).map (fun r => a + if r < b then 1 else 0)).sum =
      m * a + min b m := by
  intro m
  induction m with
  | zero => simp
  | succ m ih =>
    rw [List.range_succ, List.map_append, List.sum_append, ih, Nat.succ_mul]
    by_cases h : m < b <;> simp [h] <;> omega

/-- Length of the section-size list. -/
theorem split_sizes_length (n P : ℕ) : (split_sizes n P).length = P := by
  simp [split_sizes]

/-- The section sizes add up to the total count. -/
theorem split_sizes_sum (n P : ℕ) (hP : 0 < P) : (split_sizes n P).sum = n := by
  unfold split_sizes
  rw [sum_range_map_add_ite, min_eq_left (le_of_lt (Nat.mod_lt n hP))]
  have h := Nat.div_add_mod n P
  omega

/-- A single section size. -/
theorem split_sizes_getD (n P r : ℕ) (h : r < P) :
    (split_sizes n P).getD r 0 = n / P + if r < n % P then 1 else 0 :=
  range_map_getD _ _ _ _ h

/-- Number of blocks produced by `range_parts`. -/
theorem range_parts_length (ns : List ℕ) : ∀ s, (range_parts ns s).length = ns.length := by
  induction ns with
  | nil => intro s; rfl
  | cons k t ih => intro s; simp [range_parts, ih]

/-- The block at position `r` is the contiguous range of the `r`-th size,
starting after the sizes before it. -/
theorem range_parts_getD (ns : List ℕ) :
    ∀ s r, r < ns.length →
      (range_parts ns s).getD r [] = List.range' (s + (ns.take r).sum) (ns.getD r 0) := by
  induction ns with
  | nil => intro s r h; simp at h
  | cons k t ih =>
    intro s r h
    cases r with
    | zero => simp [range_parts]
    | succ r =>
      simp only [range_parts, List.getD_cons_succ]
      rw [ih (s + k) r (by simpa using h)]
      congr 1
      simp
      omega

/-! ## C5: balanced distribution of batches over processes -/

/-- C5.  `np.array_split(np.arange(n), P)` splits `[0, n)` into `P` contiguous
sub-ranges ordered by rank: the first `n % P` ranks get `n / P + 1` elements
(`= ceil(n/P)` since `n % P > 0` there), the rest get `n / P`; concatenating
the parts in rank order reproduces `[0, n)` exactly (no overlap, no gap); and
for `n = 17`, `P = 5` the sizes are `4, 4, 3, 3, 3`. -/
theorem array_split_balanced :
    (∀ n P : ℕ, 1 ≤ P →
      (array_split n P).length = P ∧
      (array_split n P).flatten = List.range n ∧
      (∀ r : ℕ, r < n % P → ((array_split n P).getD r []).length = n / P + 1) ∧
      (∀ r : ℕ, n % P ≤ r → r < P → ((array_split n P).getD r []).length = n / P)) ∧
    (array_split 17 5).map List.length = [4, 4, 3, 3, 3] := by
  constructor
  · intro n P hP
    refine ⟨?_, ?_, ?_, ?_⟩
    · unfold array_split
      rw [range_parts_length, split_sizes_length]
    · unfold array_split
      rw [range_parts_flatten, split_sizes_sum n P hP, List.range_eq_range']
    · intro r hr
      have hrP : r < P := lt_of_lt_of_le hr (le_of_lt (Nat.mod_lt n hP))
      unfold array_split
      rw [range_parts_getD _ _ _ (by rw [split_sizes_length]; exact hrP),
        List.length_range', split_sizes_getD n P r hrP]
      simp [hr]
    · intro r hr hrP
      unfold array_split
      rw [range_parts_getD _ _ _ (by rw [split_sizes_length]; exact hrP),
        List.length_range', split_sizes_getD n P r hrP]
      simp [Nat.not_lt.mpr hr]
  · decide

/-- C5 witness: the `batchCount = 17`, `processCount = 5` instance. -/
theorem array_split_balanced_witness :
    (array_split 17 5).length = 5 ∧
    (array_split 17 5).flatten = List.range 17 ∧
    ((array_split 17 5).getD 0 []).length = 17 / 5 + 1 ∧
    ((array_split 17 5).getD 4 []).length = 17 / 5 :=
  ⟨(array_split_balanced.1 17 5 (by decide)).1,
   (array_split_balanced.1 17 5 (by decide)).2.1,
   (array_split_balanced.1 17 5 (by decide)).2.2.1 0 (by decide),
   (array_split_balanced.1 17 5 (by decide)).2.2.2 4 (by decide) (by decide)⟩

/-- C8 amended.  A rank that is assigned no batches (possible exactly when
`batchCount <= rank < processCount`) makes `get_slice_list_per_process` raise
`IndexError` (from `frames[0]` on an empty section); it does not receive an
empty list. -/
theorem get_slice_list_per_process_empty_is_error (sl : List Desc) (P r : ℕ)
    (h1 : sl.length ≤ r) (h2 : r < P) :
    get_slice_list_per_process sl P r = Except.error PyErr.indexError := by
  have hnP : sl.length < P := lt_of_le_of_lt h1 h2
  have hsz : (split_sizes sl.length P).getD r 0 = 0 := by
    rw [split_sizes_getD _ _ _ h2, Nat.div_eq_of_lt hnP, Nat.mod_eq_of_lt hnP]
    simp [Nat.not_lt.mpr h1]
  have hframes : (array_split sl.length P).getD r [] = [] := by
    unfold array_split
    rw [range_parts_getD _ _ _ (by rw [split_sizes_length]; exact h2), hsz]
    simp
  unfold get_slice_list_per_process
  rw [hframes]

/-- C8 amended, witness: one batch, two processes, rank `1`. -/
theorem get_slice_list_per_process_empty_is_error_witness :
    get_slice_list_per_process [[((some 0 : Option ℤ), (some 1 : Option ℤ))]] 2 1 =
      Except.error PyErr.indexError :=
  get_slice_list_per_process_empty_is_error _ 2 1 (by decide) (by decide)

/-! ## Lemmas towards the padding round-trip -/

/-- Element of a map over `List.range`, as `getElem?`. -/
theorem range_map_getElem?_lt {β : Type} (f : ℕ → β) (n i : ℕ) (h : i < n) :
    ((List.range n).map f)[i]? = some (f i) := by
  rw [List.getElem?_map, List.getElem?_range h]
  rfl

/-- Out-of-range element of a map over `List.range`. -/
theorem range_map_getElem?_ge {β : Type} (f : ℕ → β) (n i : ℕ) (h : n ≤ i) :
    ((List.range n).map f)[i]? = none := by
  rw [List.getElem?_eq_none]
  simpa using h

/-- The two components of `windowInBounds`: equal lengths. -/
theorem windowInBounds_len {input : List PySlice} {shape : List ℕ}
    (h : windowInBounds input shape = true) : input.length = shape.length := by
  unfold windowInBounds at h
  rw [Bool.and_eq_true] at h
  exact eq_of_beq h.1

/-- The two components of `windowInBounds`: each entry is a finite in-bounds
range. -/
theorem windowInBounds_at {input : List PySlice} {shape : List ℕ}
    (h : windowInBounds input shape = true) (i : ℕ) (hi : i < input.length) :
    ∃ s e : ℤ, input.getD i (none, none) = (some s, some e) ∧
      0 ≤ s ∧ s ≤ e ∧ e ≤ (shape.getD i 0 : ℤ) := by
  unfold windowInBounds at h
  rw [Bool.and_eq_true, List.all_eq_true] at h
  have h2 := h.2 i (List.mem_range.mpr hi)
  rcases hsl : input.getD i (none, none) with ⟨s?, e?⟩
  rw [hsl] at h2
  rcases s? with _ | s
  · simp [sliceInBounds] at h2
  rcases e? with _ | e
  · simp [sliceInBounds] at h2
  refine ⟨s, e, rfl, ?_⟩
  have h3 : (0 ≤ s ∧ s ≤ e) ∧ e ≤ ((shape.getD i 0 : ℕ) : ℤ) := by
    simpa [sliceInBounds, List.getD_eq_getElem?_getD] using h2
  exact ⟨h3.1.1, h3.1.2, h3.2⟩

/-- A pad amount present in a dictionary satisfying `padsNonneg` is
non-negative. -/
theorem padsNonneg_at {pd : List (Option ℤ)} (h : padsNonneg pd = true)
    {i : ℕ} {p : ℤ} (hp : pd.getD i none = some p) : 0 ≤ p := by
  unfold padsNonneg at h
  rw [List.all_eq_true] at h
  by_cases hi : i < pd.length
  · have hmem : pd[i] ∈ pd := List.getElem_mem hi
    have hv := h _ hmem
    rw [List.getD_eq_getElem?_getD, List.getElem?_eq_getElem hi] at hp
    simp only [Option.getD_some] at hp
    rw [hp] at hv
    simpa using hv
  · rw [List.getD_eq_getElem?_getD, List.getElem?_eq_none (by omega)] at hp
    simp at hp

/-- Length selected by a finite in-bounds slice. -/
theorem axis_read_len (s e : ℤ) (n : ℕ) (h0 : 0 ≤ s) (hse : s ≤ e)
    (hen : e ≤ (n : ℤ)) : sliceLen (some s, some e) n = (e - s).toNat := by
  simp only [sliceLen, sliceStart, sliceStop]
  split_ifs <;> omega

/-- Start of a finite in-bounds slice. -/
theorem axis_read_start (s e : ℤ) (n : ℕ) (h0 : 0 ≤ s) (hsn : s ≤ (n : ℤ)) :
    sliceStart (some s, some e) n = s.toNat := by
  simp only [sliceStart]
  split_ifs <;> omega

/-- A whole-axis slice selects the whole axis. -/
theorem sliceLen_whole (n : ℕ) :
    sliceLen ((none : Option ℤ), (none : Option ℤ)) n = n := by
  simp [sliceLen, sliceStart, sliceStop]

/-- Total padded length of one padded axis: the clipped read plus the two pad
amounts always restore `(e - s) + 2p` elements. -/
theorem axis_padded_len (s e p : ℤ) (n : ℕ) (h0 : 0 ≤ s) (hse : s ≤ e)
    (hen : e ≤ (n : ℤ)) (hp : 0 ≤ p) :
    (max 0 (p - s)).toNat +
      sliceLen (some (max (s - p) 0),
        some (if e + p > (n : ℤ) then (n : ℤ) + 1 else e + p)) n +
      (max 0 (e + p - n)).toNat = (e - s).toNat + 2 * p.toNat := by
  simp only [sliceLen, sliceStart, sliceStop]
  split_ifs <;> omega

/-- Stripping `p` from both ends of a padded axis of length `(e - s) + 2p`
leaves `(e - s)` elements. -/
theorem axis_strip_len (s e p : ℤ) (hp : 0 ≤ p) :
    sliceLen (if 0 < p then ((some p : Option ℤ), (some (0 - p) : Option ℤ))
        else (none, none)) ((e - s).toNat + 2 * p.toNat) = (e - s).toNat := by
  split_ifs with h
  · simp only [sliceLen, sliceStart, sliceStop]
    split_ifs <;> omega
  · rw [sliceLen_whole]
    omega

set_option maxHeartbeats 1600000 in
/-- Composite index map through strip-of-pad-of-read on one padded axis: for a
coordinate `k` inside the requested window, reading position `p + k` of the
padded axis clamps back to absolute position `s + k` of the original data. -/
theorem axis_pad_get (s e p : ℤ) (n k : ℕ) (h0 : 0 ≤ s) (hse : s ≤ e)
    (hen : e ≤ (n : ℤ)) (hp : 0 ≤ p) (hk : k < (e - s).toNat) :
    sliceStart (some (max (s - p) 0),
        some (if e + p > (n : ℤ) then (n : ℤ) + 1 else e + p)) n +
      edgeClamp (max 0 (p - s)).toNat
        (sliceLen (some (max (s - p) 0),
          some (if e + p > (n : ℤ) then (n : ℤ) + 1 else e + p)) n)
        (sliceStart
            (if 0 < p then ((some p : Option ℤ), (some (0 - p) : Option ℤ))
              else (none, none))
            ((max 0 (p - s)).toNat +
              sliceLen (some (max (s - p) 0),
                some (if e + p > (n : ℤ) then (n : ℤ) + 1 else e + p)) n +
              (max 0 (e + p - n)).toNat) + k) =
      s.toNat + k := by
  by_cases hpp : 0 < p <;>
    simp only [sliceLen, sliceStart, sliceStop, edgeClamp, hpp, if_true, if_false] <;>
    split_ifs <;> omega

/-- Composite index map on an axis without a padding entry: the pad is
`(0, 0)` and the strip slice is whole, so the read is passed through. -/
theorem axis_unpad_get (s e : ℤ) (n L k : ℕ) (h0 : 0 ≤ s) (hse : s ≤ e)
    (hen : e ≤ (n : ℤ)) (hk : k < (e - s).toNat) :
    sliceStart (some s, some e) n +
      edgeClamp (0 : ℤ).toNat (sliceLen (some s, some e) n)
        (sliceStart ((none : Option ℤ), (none : Option ℤ)) L + k) =
      s.toNat + k := by
  simp only [sliceLen, sliceStart, sliceStop, edgeClamp]
  split_ifs <;> omega

/-- Element of a map over `List.range` through `getD`, unconditionally. -/
theorem range_map_getD_ite {β : Type} (f : ℕ → β) (n i : ℕ) (d : β) :
    ((List.range n).map f).getD i d = if i < n then f i else d := by
  by_cases h : i < n
  · rw [if_pos h]
    exact range_map_getD f n i d h
  · rw [if_neg h, List.getD_eq_getElem?_getD, range_map_getElem?_ge f n i (by omega)]
    rfl

/-! ## C2: padding round-trip -/

/-- C2.  For every in-bounds window (a list of finite ranges inside the array
shape), every padding dictionary with non-negative pad amounts over valid
directions, stripping the padding from the padded read recovers exactly the
raw unpadded read of the same window: the result of
`get_unpadded_slice_data(window, get_padded_slice_data(window))` has the same
shape as `self.data[window]` and agrees with it on every in-range index;
dimensions without a padding entry pass through unchanged. -/
theorem padding_roundtrip {α : Type} (data : NDArr α) (input : List PySlice)
    (pd : List (Option ℤ))
    (hw : windowInBounds input data.shape = true)
    (hpn : padsNonneg pd = true)
    (_hpl : pd.length ≤ input.length) :
    (get_unpadded_slice_data data (some pd) input
        (get_padded_slice_data data (some pd) input)).shape =
      (ndRead data input).shape ∧
    ∀ idx : ℕ → ℕ,
      (∀ i, i < (ndRead data input).shape.length →
        idx i < (ndRead data input).shape.getD i 0) →
      (get_unpadded_slice_data data (some pd) input
          (get_padded_slice_data data (some pd) input)).get idx =
        (ndRead data input).get idx := by
  have hN : input.length = data.shape.length := windowInBounds_len hw
  have hlen1 : (get_unpadded_slice_data data (some pd) input
      (get_padded_slice_data data (some pd) input)).shape.length = data.shape.length := by
    simp [get_unpadded_slice_data, get_padded_slice_data, get_pad_data, ndPadEdge, ndRead]
  have hlen2 : (ndRead data input).shape.length = data.shape.length := by
    simp [ndRead]
  constructor
  · apply List.ext_getElem (by rw [hlen1, hlen2])
    intro i h1 h2
    have hiN : i < data.shape.length := by rw [hlen1] at h1; exact h1
    have hii : i < input.length := by omega
    obtain ⟨s, e, hsl, hs0, hse, hen⟩ := windowInBounds_at hw i hii
    simp only [get_unpadded_slice_data, get_padded_slice_data, get_pad_data,
      ndPadEdge, ndRead, List.getElem_map, List.getElem_range, List.length_map,
      List.length_range, range_map_getD_ite, hiN, hii, if_true, hsl]
    rcases hpd : pd.getD i none with _ | p
    · simp only [hpd, Option.getD_none, lt_irrefl, if_false]
      rw [sliceLen_whole]
      simp
    · have hp : 0 ≤ p := padsNonneg_at hpn hpd
      simp only [hpd, Option.getD_some, calc_pad_finite]
      rw [axis_padded_len s e p _ hs0 hse hen hp, axis_strip_len s e p hp,
        axis_read_len s e _ hs0 hse hen]
  · intro idx hidx
    simp only [get_unpadded_slice_data, get_padded_slice_data, get_pad_data,
      ndPadEdge, ndRead]
    congr 1
    funext j
    by_cases hjN : j < data.shape.length
    · have hji : j < input.length := by omega
      obtain ⟨s, e, hsl, hs0, hse, hen⟩ := windowInBounds_at hw j hji
      have hslE : input[j]? = some (some s, some e) := by
        rw [List.getD_eq_getElem?_getD, List.getElem?_eq_getElem hji] at hsl
        rw [List.getElem?_eq_getElem hji]
        simpa using hsl
      have hk : idx j < (e - s).toNat := by
        have hb := hidx j (by rw [hlen2]; exact hjN)
        simp only [ndRead, range_map_getD_ite, hjN, if_true, List.length_map,
          List.length_range, hsl] at hb
        rwa [axis_read_len s e _ hs0 hse hen] at hb
      simp only [List.getElem?_map, List.getElem?_range hjN,
        range_map_getElem?_lt _ _ _ hjN, range_map_getElem?_lt _ _ _ hji,
        List.length_map, List.length_range, range_map_getD_ite, hjN, hji, if_true,
        hslE, hsl, Option.map_some']
      rcases hpd : pd.getD j none with _ | p
      · simp only [hpd, Option.getD_none, lt_irrefl, if_false]
        rw [axis_unpad_get s e _ _ _ hs0 hse hen hk,
          axis_read_start s e _ hs0 (le_trans hse hen)]
      · have hp : 0 ≤ p := padsNonneg_at hpn hpd
        simp only [hpd, Option.getD_some, calc_pad_finite]
        rw [axis_pad_get s e p _ _ hs0 hse hen hp hk,
          axis_read_start s e _ hs0 (le_trans hse hen)]
    · have hji : input.length ≤ j := by omega
      have hjd : data.shape.length ≤ j := by omega
      simp only [List.length_map, List.length_range,
        range_map_getElem?_ge _ data.shape.length j hjd,
        range_map_getElem?_ge _ input.length j hji,
        List.getElem?_eq_none (show input.length ≤ j from hji)]

/-- C2 witness: a `4 x 6` array, window `[1,3) x [4,6)`, padding dictionary
that pads direction `1` by `2` and leaves direction `0` alone. -/
theorem padding_roundtrip_witness :
    (get_unpadded_slice_data (⟨[4, 6], fun idx => (idx 0, idx 1)⟩ : NDArr (ℕ × ℕ))
        (some [none, some 2]) [(some 1, some 3), (some 4, some 6)]
        (get_padded_slice_data ⟨[4, 6], fun idx => (idx 0, idx 1)⟩
          (some [none, some 2]) [(some 1, some 3), (some 4, some 6)])).shape =
      (ndRead (⟨[4, 6], fun idx => (idx 0, idx 1)⟩ : NDArr (ℕ × ℕ))
        [(some 1, some 3), (some 4, some 6)]).shape ∧
    (get_unpadded_slice_data (⟨[4, 6], fun idx => (idx 0, idx 1)⟩ : NDArr (ℕ × ℕ))
        (some [none, some 2]) [(some 1, some 3), (some 4, some 6)]
        (get_padded_slice_data ⟨[4, 6], fun idx => (idx 0, idx 1)⟩
          (some [none, some 2]) [(some 1, some 3), (some 4, some 6)])).get
      (fun _ => 1) =
      (ndRead (⟨[4, 6], fun idx => (idx 0, idx 1)⟩ : NDArr (ℕ × ℕ))
        [(some 1, some 3), (some 4, some 6)]).get (fun _ => 1) :=
  ⟨(padding_roundtrip ⟨[4, 6], fun idx => (idx 0, idx 1)⟩
      [(some 1, some 3), (some 4, some 6)] [none, some 2]
      (by decide) (by decide) (by decide)).1,
   (padding_roundtrip ⟨[4, 6], fun idx => (idx 0, idx 1)⟩
      [(some 1, some 3), (some 4, some 6)] [none, some 2]
      (by decide) (by decide) (by decide)).2 (fun _ => 1) (by decide)⟩
